import Mathlib

/-!
Shallow embedding of the PyTreeFile core: the volume-profile sampler and
height aggregator of src/pytreefile/geom.py and the skeleton assembler of
src/pytreefile/meshes.py.  Float values are modelled exactly: grid
coordinates and heights as rationals, vector geometry over the reals.
External library operations (numpy, pandas, open3d) are modelled by their
documented behaviour where the functions under verification call them.
-/

/-- Points of the sampling grid: exact stand-ins for the float coordinate
triples used by geom.py. -/
abbrev Q3 := ℚ × ℚ × ℚ

/-- Python range(start, stop, step) for a positive step. -/
def pyRange (start stop step : ℕ) : List ℕ :=
  List.range' start ((stop - start + step - 1) / step) step

/-- Coordinate triple of flat grid index i, as computed inside raycast_batch
(geom.py line 97): (x[i // (len(y)*len(z))], y[(i // len(z)) % len(y)],
z[i % len(z)]). -/
def grid_index_point (x y z : List ℚ) (i : ℕ) : Q3 :=
  (x.getD (i / (y.length * z.length)) 0,
   y.getD ((i / z.length) % y.length) 0,
   z.getD (i % z.length) 0)

/-- Sample points of the batch of flat indices [start, stop), geom.py
lines 95-100. -/
def batch_points (start stop : ℕ) (x y z : List ℚ) : List Q3 :=
  (List.range' start (stop - start)).map (grid_index_point x y z)

/-- geom.py raycast_batch (lines 80-111).  The open3d RaycastingScene is
abstracted as an oracle giving, for a sample point, the number of
mesh-triangle intersections of the ray cast from it in the fixed +Z
direction (every ray uses the same direction row [0, 0, 1], line 102).
The function returns batch_points[intersection_counts % 2 == 1]. -/
def raycast_batch (start stop : ℕ) (scene : Q3 → ℕ) (x y z : List ℚ) : List Q3 :=
  (batch_points start stop x y z).filter (fun p => scene p % 2 == 1)

/-- Batch bounds of the sampling loop in compute_mesh_volume_profile
(geom.py lines 162-167): i in range(0, total, batch_size), each batch
covering flat indices [i, min(i + batch_size, total)). -/
def loop_batches (total batch_size : ℕ) : List (ℕ × ℕ) :=
  (pyRange 0 total batch_size).map (fun i => (i, min (i + batch_size) total))

/-- Concatenation over the loop's batches of the per-batch interior points
(the np.vstack of the raycast_batch results, with raycast_batch given the
scene and grid arguments that are in scope at the call site). -/
def batched_inside (total batch_size : ℕ) (scene : Q3 → ℕ) (x y z : List ℚ) : List Q3 :=
  (loop_batches total batch_size).flatMap (fun b => raycast_batch b.1 b.2 scene x y z)

/-- Python exception kinds raised by the modelled numpy/pandas operations. -/
inductive PyError where
  | typeError
  | valueError
  | indexError
deriving DecidableEq

/-- Number of parameters of def raycast_batch(start, end, scene, x, y, z)
(geom.py line 80); none of them has a default value. -/
def raycast_batch_param_count : ℕ := 6

/-- Number of positional arguments at the call
raycast_batch(i, min(i + batch_size, len(x) * len(y) * len(z)))
(geom.py line 164). -/
def raycast_batch_call_arg_count : ℕ := 2

/-- Python call protocol: a call whose positional argument count does not
match the callee's parameter count (no defaults, no varargs) raises
TypeError before the body runs. -/
def py_call {α : Type} (param_count arg_count : ℕ)
    (body : Unit → Except PyError α) : Except PyError α :=
  if arg_count = param_count then body () else .error .typeError

/-- First-exception propagation: the list comprehension at geom.py
lines 162-167 evaluates left to right and the first raised exception
aborts it. -/
def py_sequence {α : Type} : List (Except PyError α) → Except PyError (List α)
  | [] => .ok []
  | .error e :: _ => .error e
  | .ok a :: rest => (py_sequence rest).map (fun l => a :: l)

/-- np.vstack: concatenates a non-empty list of row blocks; np.vstack([])
raises ValueError (need at least one array to concatenate). -/
def np_vstack {α : Type} (blocks : List (List α)) : Except PyError (List α) :=
  match blocks with
  | [] => .error .valueError
  | _ => .ok blocks.flatten

/-- Python float modulo x % y = x - floor(x / y) * y (result carries the
sign of the divisor); numpy applies the same rule to float arrays. -/
def pymod (x y : ℚ) : ℚ := x - ⌊x / y⌋ * y

/-- np.min of a non-empty array, as the minimum of head and tail. -/
def np_min (z : ℚ) (rest : List ℚ) : ℚ := rest.foldl min z

/-- Shift applied at geom.py lines 182-184: when the minimum height is
negative it is subtracted from every height, otherwise heights are kept. -/
def shift_heights (zs : List ℚ) (min_z : ℚ) : List ℚ :=
  if min_z < 0 then zs.map (fun h => h - min_z) else zs

/-- Bin index of each (possibly shifted) height, geom.py line 186:
np.floor(z_coords / bin_size).astype(int). -/
def height_bins (zs : List ℚ) (min_z bin_size : ℚ) : List ℤ :=
  (shift_heights zs min_z).map (fun h => ⌊h / bin_size⌋)

/-- np.bincount: for an array of non-negative integers, the occurrence
counts of 0, 1, ..., max; raises ValueError on a negative entry; returns
the empty array on empty input. -/
def np_bincount (l : List ℤ) : Except PyError (List ℕ) :=
  if l.any (fun b => decide (b < 0)) then .error .valueError
  else
    match l with
    | [] => .ok []
    | _ => .ok ((List.range ((l.foldr max 0).toNat + 1)).map (fun (i : ℕ) => l.count (i : ℤ)))

/-- Tail of compute_mesh_volume_profile (geom.py lines 170-196), starting
from the heights of the stacked interior points.  An empty stack was
replaced by the 1-D array np.array([]) at line 170, so the column access
inside_points[:, 2] at line 179 raises IndexError; otherwise the heights
are shifted when their minimum is negative, binned with np.bincount, and
reported as (bin_edges, voxel_size * bin_counts) with
bin_edges = np.arange(len(bin_counts)) * bin_size + (min_z - min_z % bin_size). -/
def profile_aggregate (inside_z : List ℚ) (bin_size voxel_size : ℚ) :
    Except PyError (List ℚ × List ℚ) :=
  match inside_z with
  | [] => .error .indexError
  | z0 :: rest =>
    let min_z := np_min z0 rest
    let z_bins := height_bins (z0 :: rest) min_z bin_size
    match np_bincount z_bins with
    | .error e => .error e
    | .ok bin_counts =>
      let bin_edges := (List.range bin_counts.length).map
        (fun (i : ℕ) => (i : ℚ) * bin_size + (min_z - pymod min_z bin_size))
      .ok (bin_edges, bin_counts.map (fun (c : ℕ) => voxel_size * (c : ℚ)))

/-- geom.py compute_mesh_volume_profile (lines 114-196) after the external
mesh repair/loading steps: the grid is given by the x, y, z coordinate
lists (np.arange over the bounding box at the voxel pitch) and the scene by
the intersection-count oracle.  The sampling loop calls raycast_batch with
2 of its 6 required positional arguments (line 164), modelled by py_call
around the batch raycast_batch would perform. -/
def compute_mesh_volume_profile (scene : Q3 → ℕ) (x y z : List ℚ)
    (voxel_size bin_size : ℚ) (batch_size : ℕ) :
    Except PyError (List ℚ × List ℚ) :=
  let total := x.length * y.length * z.length
  let batch_results := (pyRange 0 total batch_size).map (fun i =>
    py_call raycast_batch_param_count raycast_batch_call_arg_count
      (fun _ => .ok (raycast_batch i (min (i + batch_size) total) scene x y z)))
  match py_sequence batch_results with
  | .error e => .error e
  | .ok blocks =>
    match np_vstack blocks with
    | .error e => .error e
    | .ok inside_points =>
      profile_aggregate (inside_points.map (fun p => p.2.2)) bin_size voxel_size

/-- 3-vectors with real components, standing for numpy float arrays of
length 3. -/
abbrev V3 := ℝ × ℝ × ℝ

/-- Componentwise vector sum. -/
noncomputable def add3 (a b : V3) : V3 := (a.1 + b.1, a.2.1 + b.2.1, a.2.2 + b.2.2)

/-- Componentwise vector difference. -/
noncomputable def sub3 (a b : V3) : V3 := (a.1 - b.1, a.2.1 - b.2.1, a.2.2 - b.2.2)

/-- Scalar multiple of a vector. -/
noncomputable def smul3 (c : ℝ) (a : V3) : V3 := (c * a.1, c * a.2.1, c * a.2.2)

/-- Componentwise division of a vector by a scalar. -/
noncomputable def div3 (a : V3) (c : ℝ) : V3 := (a.1 / c, a.2.1 / c, a.2.2 / c)

/-- np.dot on 3-vectors. -/
noncomputable def dot3 (a b : V3) : ℝ := a.1 * b.1 + a.2.1 * b.2.1 + a.2.2 * b.2.2

/-- np.cross on 3-vectors. -/
noncomputable def cross3 (a b : V3) : V3 :=
  (a.2.1 * b.2.2 - a.2.2 * b.2.1, a.2.2 * b.1 - a.1 * b.2.2, a.1 * b.2.1 - a.2.1 * b.1)

/-- np.linalg.norm of a 3-vector. -/
noncomputable def norm3 (a : V3) : ℝ := Real.sqrt (a.1 ^ 2 + a.2.1 ^ 2 + a.2.2 ^ 2)

/-- Row-major 3x3 real matrices, as a triple of row vectors. -/
abbrev M3 := V3 × V3 × V3

/-- np.eye(3). -/
noncomputable def eye3 : M3 := ((1, 0, 0), (0, 1, 0), (0, 0, 1))

/-- Matrix sum. -/
noncomputable def mat3_add (A B : M3) : M3 := (add3 A.1 B.1, add3 A.2.1 B.2.1, add3 A.2.2 B.2.2)

/-- Scalar multiple of a matrix (numpy broadcasting of matrix * scalar). -/
noncomputable def mat3_smul (c : ℝ) (A : M3) : M3 := (smul3 c A.1, smul3 c A.2.1, smul3 c A.2.2)

/-- Column extraction helpers for the matrix product. -/
noncomputable def mat3_col1 (A : M3) : V3 := (A.1.1, A.2.1.1, A.2.2.1)

/-- Second column of a matrix. -/
noncomputable def mat3_col2 (A : M3) : V3 := (A.1.2.1, A.2.1.2.1, A.2.2.2.1)

/-- Third column of a matrix. -/
noncomputable def mat3_col3 (A : M3) : V3 := (A.1.2.2, A.2.1.2.2, A.2.2.2.2)

/-- Matrix product A.dot(B). -/
noncomputable def mat3_mul (A B : M3) : M3 :=
  ((dot3 A.1 (mat3_col1 B), dot3 A.1 (mat3_col2 B), dot3 A.1 (mat3_col3 B)),
   (dot3 A.2.1 (mat3_col1 B), dot3 A.2.1 (mat3_col2 B), dot3 A.2.1 (mat3_col3 B)),
   (dot3 A.2.2 (mat3_col1 B), dot3 A.2.2 (mat3_col2 B), dot3 A.2.2 (mat3_col3 B)))

/-- Matrix-vector application. -/
noncomputable def matvec3 (A : M3) (v : V3) : V3 := (dot3 A.1 v, dot3 A.2.1 v, dot3 A.2.2 v)

/-- geom.py rotation_matrix_from_vectors (lines 23-43), translated verbatim
over exact reals, where division by zero denotes 0 (IEEE floats would give
inf or nan entries instead): the formula
eye(3) + kmat + kmat.dot(kmat) * ((1 - c) / s**2) is applied
unconditionally, with no branch guarding the degenerate s = 0 case. -/
noncomputable def rotation_matrix_from_vectors (vec1 vec2 : V3) : M3 :=
  let a := div3 vec1 (norm3 vec1)
  let b := div3 vec2 (norm3 vec2)
  let v := cross3 a b
  let c := dot3 a b
  let s := norm3 v
  let kmat : M3 := ((0, -v.2.2, v.2.1), (v.2.2, 0, -v.1), (-v.2.1, v.1, 0))
  mat3_add (mat3_add eye3 kmat) (mat3_smul ((1 - c) / s ^ 2) (mat3_mul kmat kmat))

/-- geom.py direction_vector (lines 7-20). -/
noncomputable def direction_vector (point1 point2 : V3) : V3 :=
  (point2.1 - point1.1, point2.2.1 - point1.2.1, point2.2.2 - point1.2.2)

/-- One row of the segment table fed to recontruct_treefile.  The position
columns are the first three columns of the DataFrame (parent coordinates
are read positionally through iloc[0, 0..2]); the ids are the numeric
codes compared for equality, kept exact. -/
structure TreeRow where
  x : ℝ
  y : ℝ
  z : ℝ
  radius : ℝ
  section_id : ℚ
  parent_id : ℚ

/-- Marker geometry of an open3d cylinder mesh: radius, height and the two
end-disc centre vertices.  o3d.geometry.TriangleMesh.create_cylinder
builds the cylinder centred at the origin with its axis along +Z and the
end-disc centres at (0, 0, height/2) and (0, 0, -height/2); the resolution
and split arguments fix the tessellation only and do not move these
markers. -/
structure Cylinder where
  radius : ℝ
  height : ℝ
  top_center : V3
  bottom_center : V3

/-- o3d.geometry.TriangleMesh.create_cylinder(radius, height, resolution, split). -/
noncomputable def create_cylinder (radius height : ℝ) (resolution split : ℕ) : Cylinder :=
  ⟨radius, height, (0, 0, height / 2), (0, 0, -(height / 2))⟩

/-- open3d TriangleMesh.rotate(R, center): every vertex v becomes
R (v - center) + center. -/
noncomputable def Cylinder.rotate (cyl : Cylinder) (R : M3) (center : V3) : Cylinder :=
  ⟨cyl.radius, cyl.height,
   add3 (matvec3 R (sub3 cyl.top_center center)) center,
   add3 (matvec3 R (sub3 cyl.bottom_center center)) center⟩

/-- open3d TriangleMesh.translate(t) with the default relative mode: every
vertex moves by t. -/
noncomputable def Cylinder.translate (cyl : Cylinder) (t : V3) : Cylinder :=
  ⟨cyl.radius, cyl.height, add3 cyl.top_center t, add3 cyl.bottom_center t⟩

/-- Parent lookup tree_df[tree_df['section_id'] == parent_id]
(meshes.py line 28). -/
def find_parent (df : List TreeRow) (parent_id : ℚ) : List TreeRow :=
  df.filter (fun r => r.section_id == parent_id)

/-- Failure of one row of the assembler, caught by the bare except at
meshes.py line 50.  An empty parent lookup makes parent_section.iloc[0]
raise IndexError. -/
inductive RowError where
  | missingParent
deriving DecidableEq

/-- Cylinder built for a segment row from its resolved parent row
(meshes.py lines 29-46): start is the parent position, end the row
position, the primitive is created with the row radius and the segment
length, rotated about the origin by the matrix aligning +Z with the
direction, and translated by start. -/
noncomputable def segment_cylinder (parent row : TreeRow) : Cylinder :=
  let start : V3 := (parent.x, parent.y, parent.z)
  let stop : V3 := (row.x, row.y, row.z)
  let direction := direction_vector start stop
  let length := |norm3 (sub3 stop start)|
  let R := rotation_matrix_from_vectors (0, 0, 1) direction
  ((create_cylinder row.radius length 8 4).rotate R (0, 0, 0)).translate start

/-- Body of one iteration of the assembler loop (meshes.py lines 19-49):
ok none when the row is a root or invalid row, skipped before any lookup;
error when the parent lookup came back empty and iloc[0] raised; ok some
cylinder otherwise, built from the first matching parent row. -/
noncomputable def row_step (df : List TreeRow) (row : TreeRow) :
    Except RowError (Option Cylinder) :=
  if row.parent_id == 0 || row.section_id == -1 then .ok none
  else
    match find_parent df row.parent_id with
    | [] => .error .missingParent
    | parent :: _ => .ok (some (segment_cylinder parent row))

/-- meshes.py recontruct_treefile (lines 5-52): fold over the rows in table
order, appending each built cylinder to the mesh; the bare except turns any
row failure into a skip, so the fold always completes and returns the
accumulated mesh. -/
noncomputable def recontruct_treefile (df : List TreeRow) : List Cylinder :=
  df.foldl (fun mesh row =>
    match row_step df row with
    | .ok (some cyl) => mesh ++ [cyl]
    | .ok none => mesh
    | .error _ => mesh) []

/-- Root segment at the origin used by the concrete assembler examples. -/
noncomputable def root_row : TreeRow := ⟨0, 0, 0, 1, 1, 0⟩

/-- Branch segment at (3, 0, 4) whose parent is the root. -/
noncomputable def branch_row : TreeRow := ⟨3, 0, 4, 1, 2, 1⟩

/-- Segment whose parent_id resolves to no section_id of the table. -/
noncomputable def orphan_row : TreeRow := ⟨1, 1, 1, 1, 2, 9⟩

/-- Table holding a root and an orphan segment. -/
noncomputable def orphan_table : List TreeRow := [root_row, orphan_row]

/-- Table where two rows share section_id = 5 and a third row references
parent_id = 5, so its parent lookup has two matches. -/
noncomputable def dup_parent_table : List TreeRow :=
  [⟨0, 0, 0, 1, 5, 0⟩, ⟨9, 9, 9, 1, 5, 0⟩, ⟨3, 0, 4, 1, 7, 5⟩]

/-- Two-row table of the root and branch segments. -/
noncomputable def branch_table : List TreeRow := [root_row, branch_row]

/-- C1: raycast_batch classifies a sample point as interior exactly when
the intersection count of the ray cast from it in the fixed +Z direction is
odd, and the returned batch is precisely the subset of the batch's points
with odd intersection count. -/
theorem raycast_batch_mem_iff (start stop : ℕ) (scene : Q3 → ℕ)
    (x y z : List ℚ) (p : Q3) :
    p ∈ raycast_batch start stop scene x y z ↔
      p ∈ batch_points start stop x y z ∧ Odd (scene p) := by
  simp [raycast_batch, List.mem_filter, Nat.odd_iff]

/-- Helper: the sampling loop starts with at least one batch whenever the
grid is non-empty. -/
theorem pyRange_zero_cons (stop step : ℕ) (hstop : 0 < stop) (hstep : 1 ≤ step) :
    ∃ m, pyRange 0 stop step = 0 :: List.range' step m step := by
  have h1 : 1 ≤ (stop - 0 + step - 1) / step :=
    (Nat.le_div_iff_mul_le hstep).mpr (by omega)
  refine ⟨(stop - 0 + step - 1) / step - 1, ?_⟩
  unfold pyRange
  rw [show (stop - 0 + step - 1) / step = ((stop - 0 + step - 1) / step - 1) + 1 by omega,
    List.range'_succ]
  simp

/-- C3: the sampling loop of compute_mesh_volume_profile invokes
raycast_batch with only two of its six required positional arguments, so
the very first batch raises TypeError and the function never returns a
profile for any input whose grid reaches the raycasting loop. -/
theorem compute_mesh_volume_profile_typeError (scene : Q3 → ℕ)
    (x y z : List ℚ) (voxel_size bin_size : ℚ) (batch_size : ℕ)
    (htotal : 0 < x.length * y.length * z.length) (hbs : 1 ≤ batch_size) :
    compute_mesh_volume_profile scene x y z voxel_size bin_size batch_size =
      Except.error PyError.typeError := by
  obtain ⟨m, hm⟩ := pyRange_zero_cons (x.length * y.length * z.length) batch_size htotal hbs
  unfold compute_mesh_volume_profile
  simp only [hm, List.map_cons]
  unfold py_call raycast_batch_param_count raycast_batch_call_arg_count
  norm_num [py_sequence]

/-- Witness for C3 at a one-point grid and batch size 1. -/
theorem compute_mesh_volume_profile_typeError_witness :
    0 < [(0 : ℚ)].length * [(0 : ℚ)].length * [(0 : ℚ)].length ∧ (1 : ℕ) ≤ 1 ∧
    compute_mesh_volume_profile (fun _ => 0) [0] [0] [0] 1 1 1 =
      Except.error PyError.typeError :=
  ⟨by decide, by decide,
    compute_mesh_volume_profile_typeError (fun _ => 0) [0] [0] [0] 1 1 1
      (by decide) (by decide)⟩

/-- C10 (code bug): on an empty interior-sample set the aggregation tail
raises IndexError (the 1-D replacement array np.array([]) built at geom.py
line 170 breaks the column access inside_points[:, 2] at line 179) instead
of returning two empty sequences. -/
theorem profile_aggregate_empty_raises (bin_size voxel_size : ℚ) :
    profile_aggregate [] bin_size voxel_size = Except.error PyError.indexError := rfl

/-- Helper: folding the assembler loop from any accumulator appends exactly
the cylinders of the successfully processed rows, in order. -/
theorem assembler_foldl_eq (df : List TreeRow) (rows : List TreeRow)
    (acc : List Cylinder) :
    rows.foldl (fun mesh row =>
      match row_step df row with
      | .ok (some cyl) => mesh ++ [cyl]
      | .ok none => mesh
      | .error _ => mesh) acc =
    acc ++ rows.filterMap (fun row =>
      match row_step df row with
      | .ok (some cyl) => some cyl
      | _ => none) := by
  induction rows generalizing acc with
  | nil => simp
  | cons r rs ih =>
    simp only [List.foldl_cons, List.filterMap_cons]
    cases h : row_step df r with
    | error e => simp only [h]; rw [ih]
    | ok o =>
      cases o with
      | none => simp only [h]; rw [ih]
      | some cyl => simp only [h]; rw [ih, List.append_assoc]; rfl

/-- C5: the assembler never aborts: a row whose processing fails
(unresolvable parent lookup, caught by the bare except) or that is a
root/invalid row contributes nothing, and the returned mesh is exactly the
list of cylinders of the remaining rows, in table order; in particular a
table with one unresolvable row still yields the cylinders of all other
valid rows. -/
theorem recontruct_treefile_skips_failures (df : List TreeRow) :
    recontruct_treefile df =
      df.filterMap (fun row =>
        match row_step df row with
        | .ok (some cyl) => some cyl
        | _ => none) := by
  unfold recontruct_treefile
  simpa using assembler_foldl_eq df df []

/-- Helper: the per-batch index ranges, walked from any start with the
loop's stride, concatenate to the contiguous index range up to total. -/
theorem batch_ranges_cover_aux (total step : ℕ) :
    ∀ n s, total ≤ s + n * step →
      (List.range' s n step).flatMap
          (fun i => List.range' i (min (i + step) total - i)) =
        List.range' s (total - s) := by
  intro n
  induction n with
  | zero =>
    intro s hs
    have h0 : total - s = 0 := by omega
    simp [h0]
  | succ m ih =>
    intro s hs
    have hexp : (m + 1) * step = m * step + step := by ring
    rw [List.range'_succ, List.flatMap_cons]
    by_cases hcase : s + step ≤ total
    · have h1 : min (s + step) total - s = step := by omega
      rw [h1, ih (s + step) (by omega)]
      have happ := List.range'_append_1 s step (total - (s + step))
      rw [happ]
      congr 1
      omega
    · have h1 : min (s + step) total - s = total - s := by omega
      rw [h1, ih (s + step) (by omega)]
      have h2 : total - (s + step) = 0 := by omega
      rw [h2]
      simp

/-- Helper: the batches of the sampling loop tile the flat index range
[0, total) exactly, final partial batch included. -/
theorem loop_batches_cover (total batch_size : ℕ) (hbs : 1 ≤ batch_size) :
    (loop_batches total batch_size).flatMap
        (fun b => List.range' b.1 (b.2 - b.1)) =
      List.range total := by
  unfold loop_batches pyRange
  rw [List.flatMap_map]
  have hq := Nat.div_add_mod (total - 0 + batch_size - 1) batch_size
  have hr : (total - 0 + batch_size - 1) % batch_size < batch_size :=
    Nat.mod_lt _ hbs
  have hcov : total ≤ 0 + ((total - 0 + batch_size - 1) / batch_size) * batch_size := by
    rw [Nat.mul_comm]
    omega
  rw [batch_ranges_cover_aux total batch_size _ 0 hcov, List.range_eq_range']
  norm_num

/-- Helper: concatenating mapped-and-filtered blocks commutes with
concatenating the blocks first. -/
theorem flatMap_map_filter {α β : Type} (l : List α) (g : α → List ℕ)
    (f : ℕ → β) (p : β → Bool) :
    l.flatMap (fun b => ((g b).map f).filter p) =
      ((l.flatMap g).map f).filter p := by
  induction l with
  | nil => simp
  | cons a t ih =>
    simp only [List.flatMap_cons, List.map_append, List.filter_append, ih]

/-- Helper: the union of per-batch interior points equals the filtered map
over the full index range, for any batch size. -/
theorem batched_inside_eq (total batch_size : ℕ) (scene : Q3 → ℕ)
    (x y z : List ℚ) (hbs : 1 ≤ batch_size) :
    batched_inside total batch_size scene x y z =
      (((List.range total).map (grid_index_point x y z)).filter
        (fun p => scene p % 2 == 1)) := by
  unfold batched_inside raycast_batch batch_points
  rw [flatMap_map_filter, loop_batches_cover total batch_size hbs]

/-- C2: the sampling loop partitions the flat index range [0, totalSamples)
into contiguous batches covering every index exactly once (the possibly
shorter final batch included), and consequently the concatenated interior
sample set is identical for every choice of batch size. -/
theorem batching_covers_and_batch_size_irrelevant (x y z : List ℚ)
    (scene : Q3 → ℕ) (bs1 bs2 : ℕ) (h1 : 1 ≤ bs1) (h2 : 1 ≤ bs2) :
    ((loop_batches (x.length * y.length * z.length) bs1).flatMap
        (fun b => List.range' b.1 (b.2 - b.1)) =
      List.range (x.length * y.length * z.length)) ∧
    batched_inside (x.length * y.length * z.length) bs1 scene x y z =
      batched_inside (x.length * y.length * z.length) bs2 scene x y z := by
  refine ⟨loop_batches_cover _ _ h1, ?_⟩
  rw [batched_inside_eq _ _ _ _ _ _ h1, batched_inside_eq _ _ _ _ _ _ h2]

/-- Witness for C2 on a 1 x 1 x 2 grid with batch sizes 1 and 2. -/
theorem batching_covers_witness :
    (1 : ℕ) ≤ 1 ∧ (1 : ℕ) ≤ 2 ∧
    (((loop_batches ([(0 : ℚ)].length * [(0 : ℚ)].length * [(0 : ℚ), 1].length) 1).flatMap
        (fun b => List.range' b.1 (b.2 - b.1)) =
      List.range ([(0 : ℚ)].length * [(0 : ℚ)].length * [(0 : ℚ), 1].length)) ∧
    batched_inside ([(0 : ℚ)].length * [(0 : ℚ)].length * [(0 : ℚ), 1].length) 1
        (fun _ => 1) [0] [0] [0, 1] =
      batched_inside ([(0 : ℚ)].length * [(0 : ℚ)].length * [(0 : ℚ), 1].length) 2
        (fun _ => 1) [0] [0] [0, 1]) :=
  ⟨by decide, by decide,
    batching_covers_and_batch_size_irrelevant [0] [0] [0, 1] (fun _ => 1) 1 2
      (by decide) (by decide)⟩

/-- Helper: a left fold of min is bounded by its initial value. -/
theorem foldl_min_le_init (l : List ℚ) : ∀ i : ℚ, l.foldl min i ≤ i := by
  induction l with
  | nil => intro i; simp
  | cons a t ih =>
    intro i
    simp only [List.foldl_cons]
    exact le_trans (ih (min i a)) (min_le_left i a)

/-- Helper: a left fold of min is bounded by every list element. -/
theorem foldl_min_le_mem (l : List ℚ) : ∀ i : ℚ, ∀ w ∈ l, l.foldl min i ≤ w := by
  induction l with
  | nil => intro i w hw; simp at hw
  | cons a t ih =>
    intro i w hw
    simp only [List.foldl_cons]
    rcases List.mem_cons.mp hw with h | h
    · subst h
      exact le_trans (foldl_min_le_init t (min i w)) (min_le_right i w)
    · exact ih (min i a) w h

/-- Helper: np.min bounds every element of the array. -/
theorem np_min_le (z0 : ℚ) (rest : List ℚ) : ∀ w ∈ z0 :: rest, np_min z0 rest ≤ w := by
  intro w hw
  unfold np_min
  rcases List.mem_cons.mp hw with h | h
  · subst h; exact foldl_min_le_init rest w
  · exact foldl_min_le_mem rest z0 w h

/-- Helper: every element is at most the right fold of max seeded with 0. -/
theorem le_foldr_max (l : List ℤ) : ∀ k ∈ l, k ≤ l.foldr max 0 := by
  induction l with
  | nil => intro k hk; simp at hk
  | cons a t ih =>
    intro k hk
    simp only [List.foldr_cons]
    rcases List.mem_cons.mp hk with h | h
    · subst h; exact le_max_left _ _
    · exact le_trans (ih k h) (le_max_right _ _)

/-- Helper: the right fold of max seeded with 0 is non-negative. -/
theorem foldr_max_nonneg (l : List ℤ) : 0 ≤ l.foldr max 0 := by
  induction l with
  | nil => simp
  | cons a t ih =>
    simp only [List.foldr_cons]
    exact le_trans ih (le_max_right a _)

/-- Helper: with a positive bin width, every bin index computed from the
(possibly shifted) heights is non-negative. -/
theorem height_bins_nonneg (z0 : ℚ) (rest : List ℚ) (b : ℚ) (hb : 0 < b) :
    ∀ k ∈ height_bins (z0 :: rest) (np_min z0 rest) b, 0 ≤ k := by
  intro k hk
  unfold height_bins shift_heights at hk
  by_cases hmin : np_min z0 rest < 0
  · rw [if_pos hmin] at hk
    simp only [List.map_map, List.mem_map, Function.comp] at hk
    obtain ⟨w, hw, hk'⟩ := hk
    subst hk'
    have hle := np_min_le z0 rest w hw
    exact Int.floor_nonneg.mpr (div_nonneg (by linarith) hb.le)
  · rw [if_neg hmin] at hk
    simp only [List.mem_map] at hk
    obtain ⟨w, hw, hk'⟩ := hk
    subst hk'
    have hle := np_min_le z0 rest w hw
    have h0 : (0 : ℚ) ≤ np_min z0 rest := not_lt.mp hmin
    exact Int.floor_nonneg.mpr (div_nonneg (by linarith) hb.le)

/-- Helper: the bin list of a non-empty height list is non-empty. -/
theorem height_bins_ne_nil (z0 : ℚ) (rest : List ℚ) (m b : ℚ) :
    height_bins (z0 :: rest) m b ≠ [] := by
  unfold height_bins shift_heights
  by_cases hmin : m < 0 <;> simp [hmin]

/-- Helper: np.bincount succeeds on a non-empty list of non-negative
integers, returning the counts of 0 .. max. -/
theorem np_bincount_ok (l : List ℤ) (hne : l ≠ []) (hnn : ∀ k ∈ l, 0 ≤ k) :
    np_bincount l =
      .ok ((List.range ((l.foldr max 0).toNat + 1)).map (fun (i : ℕ) => l.count (i : ℤ))) := by
  unfold np_bincount
  have hany : l.any (fun b => decide (b < 0)) = false := by
    rw [List.any_eq_false]
    intro k hk
    simpa using not_lt.mpr (hnn k hk)
  rw [hany]
  cases l with
  | nil => exact absurd rfl hne
  | cons a t => rfl

/-- Helper: a list sum over List.range agrees with the Finset.range sum. -/
theorem list_sum_map_range (n : ℕ) (f : ℕ → ℕ) :
    ((List.range n).map f).sum = ∑ i ∈ Finset.range n, f i := by
  induction n with
  | zero => simp
  | succ m ih =>
    rw [List.range_succ, List.map_append, List.sum_append, Finset.sum_range_succ, ih]
    simp

/-- Helper: when every element of an integer list lies in [0, n), the
counts of 0 .. n-1 sum to the list length. -/
theorem sum_range_count (l : List ℤ) (n : ℕ)
    (h : ∀ k ∈ l, 0 ≤ k ∧ k < (n : ℤ)) :
    (∑ i ∈ Finset.range n, l.count (i : ℤ)) = l.length := by
  induction l with
  | nil => simp
  | cons a t ih =>
    have ha := h a (List.mem_cons_self a t)
    have hsum : (∑ i ∈ Finset.range n, (a :: t).count (i : ℤ)) =
        (∑ i ∈ Finset.range n, t.count (i : ℤ)) +
          ∑ i ∈ Finset.range n, (if a.toNat = i then 1 else 0) := by
      rw [← Finset.sum_add_distrib]
      refine Finset.sum_congr rfl (fun i _ => ?_)
      rw [List.count_cons]
      congr 1
      have hiff : ((a == (i : ℤ)) = true) ↔ (a.toNat = i) := by
        simp only [beq_iff_eq]
        omega
      rw [if_congr hiff rfl rfl]
    rw [hsum, ih (fun k hk => h k (List.mem_cons_of_mem a hk)), Finset.sum_ite_eq,
      if_pos (Finset.mem_range.mpr (by omega))]
    simp

/-- Helper: on a non-empty height list with positive bin width the
aggregation tail succeeds, with dense edges and weights indexed by
0 .. (maximum observed bin). -/
theorem profile_aggregate_eq (z0 : ℚ) (rest : List ℚ) (b v : ℚ) (hb : 0 < b) :
    profile_aggregate (z0 :: rest) b v =
      .ok (((List.range (((height_bins (z0 :: rest) (np_min z0 rest) b).foldr max 0).toNat + 1)).map
              (fun (i : ℕ) => (i : ℚ) * b + (np_min z0 rest - pymod (np_min z0 rest) b))),
           ((List.range (((height_bins (z0 :: rest) (np_min z0 rest) b).foldr max 0).toNat + 1)).map
              (fun (i : ℕ) => v * ((height_bins (z0 :: rest) (np_min z0 rest) b).count (i : ℤ) : ℚ)))) := by
  have hbc := np_bincount_ok (height_bins (z0 :: rest) (np_min z0 rest) b)
    (height_bins_ne_nil z0 rest _ b) (height_bins_nonneg z0 rest b hb)
  unfold profile_aggregate
  simp only [hbc, List.length_map, List.length_range, List.map_map]
  rfl

/-- C8: for every non-empty height sequence and positive bin width, the
aggregator returns weights summing to the per-sample weight times the
number of samples, over a dense contiguous run of bin indices from 0 to
the maximum observed bin, empty intermediate bins carrying weight zero. -/
theorem profile_aggregate_sum_and_dense (z0 : ℚ) (rest : List ℚ) (b v : ℚ)
    (hb : 0 < b) :
    ∃ edges weights, profile_aggregate (z0 :: rest) b v = .ok (edges, weights) ∧
      weights.sum = v * ((z0 :: rest).length : ℚ) ∧
      weights.length =
        ((height_bins (z0 :: rest) (np_min z0 rest) b).foldr max 0).toNat + 1 ∧
      ∀ i : ℕ, i < weights.length →
        weights.getD i 0 =
          v * ((height_bins (z0 :: rest) (np_min z0 rest) b).count (i : ℤ) : ℚ) := by
  refine ⟨_, _, profile_aggregate_eq z0 rest b v hb, ?_, ?_, ?_⟩
  · have hlen : (height_bins (z0 :: rest) (np_min z0 rest) b).length =
        (z0 :: rest).length := by
      unfold height_bins shift_heights
      by_cases hmin : np_min z0 rest < 0 <;> simp [hmin]
    have hvals : ∀ k ∈ height_bins (z0 :: rest) (np_min z0 rest) b,
        0 ≤ k ∧ k < ((((height_bins (z0 :: rest) (np_min z0 rest) b).foldr max 0).toNat + 1 : ℕ) : ℤ) := by
      intro k hk
      have h1 := height_bins_nonneg z0 rest b hb k hk
      have h2 := le_foldr_max (height_bins (z0 :: rest) (np_min z0 rest) b) k hk
      have h3 := foldr_max_nonneg (height_bins (z0 :: rest) (np_min z0 rest) b)
      exact ⟨h1, by omega⟩
    calc ((List.range (((height_bins (z0 :: rest) (np_min z0 rest) b).foldr max 0).toNat + 1)).map
            (fun (i : ℕ) => v * ((height_bins (z0 :: rest) (np_min z0 rest) b).count (i : ℤ) : ℚ))).sum
        = v * ((List.range (((height_bins (z0 :: rest) (np_min z0 rest) b).foldr max 0).toNat + 1)).map
            (fun (i : ℕ) => ((height_bins (z0 :: rest) (np_min z0 rest) b).count (i : ℤ) : ℚ))).sum :=
          List.sum_map_mul_left _ _ _
      _ = v * ((((List.range (((height_bins (z0 :: rest) (np_min z0 rest) b).foldr max 0).toNat + 1)).map
            (fun (i : ℕ) => (height_bins (z0 :: rest) (np_min z0 rest) b).count (i : ℤ))).map
              (fun (c : ℕ) => (c : ℚ)))).sum := by rw [List.map_map]; rfl
      _ = v * ((((List.range (((height_bins (z0 :: rest) (np_min z0 rest) b).foldr max 0).toNat + 1)).map
            (fun (i : ℕ) => (height_bins (z0 :: rest) (np_min z0 rest) b).count (i : ℤ))).sum : ℕ) : ℚ) := by
          rw [Nat.cast_list_sum]
      _ = v * ((z0 :: rest).length : ℚ) := by
          rw [list_sum_map_range,
            sum_range_count (height_bins (z0 :: rest) (np_min z0 rest) b) _ hvals, hlen]
  · simp
  · intro i hi
    simp only [List.length_map, List.length_range] at hi
    rw [List.getD_eq_getElem?_getD, List.getElem?_eq_getElem (by simpa using hi)]
    simp

/-- Witness for C8 on the heights [1/2, 5/2] with bin width 1 and
per-sample weight 3. -/
theorem profile_aggregate_sum_and_dense_witness :
    (0 : ℚ) < 1 ∧
    (∃ edges weights, profile_aggregate ((1 / 2 : ℚ) :: [(5 / 2 : ℚ)]) 1 3 = .ok (edges, weights) ∧
      weights.sum = 3 * (((1 / 2 : ℚ) :: [(5 / 2 : ℚ)]).length : ℚ) ∧
      weights.length =
        ((height_bins ((1 / 2 : ℚ) :: [(5 / 2 : ℚ)]) (np_min (1 / 2) [(5 / 2)]) 1).foldr max 0).toNat + 1 ∧
      ∀ i : ℕ, i < weights.length →
        weights.getD i 0 =
          3 * ((height_bins ((1 / 2 : ℚ) :: [(5 / 2 : ℚ)]) (np_min (1 / 2) [(5 / 2)]) 1).count (i : ℤ) : ℚ)) :=
  ⟨by norm_num, profile_aggregate_sum_and_dense (1 / 2) [(5 / 2)] 1 3 (by norm_num)⟩

/-- C9: on a non-empty height sequence containing a negative value with
positive bin width, the aggregator subtracts the (negative) minimum before
binning, every bin index is non-negative and no error is raised, and the
reported edge for bin i is i * binWidth + (originalMin - originalMin mod
binWidth), a strictly increasing sequence in the original coordinates. -/
theorem profile_aggregate_negative_shift (z0 : ℚ) (rest : List ℚ) (b v : ℚ)
    (hb : 0 < b) (hneg : ∃ w ∈ z0 :: rest, w < 0) :
    shift_heights (z0 :: rest) (np_min z0 rest) =
      (z0 :: rest).map (fun h => h - np_min z0 rest) ∧
    (∀ k ∈ height_bins (z0 :: rest) (np_min z0 rest) b, 0 ≤ k) ∧
    ∃ edges weights, profile_aggregate (z0 :: rest) b v = .ok (edges, weights) ∧
      (∀ i : ℕ, i < edges.length →
        edges.getD i 0 = (i : ℚ) * b + (np_min z0 rest - pymod (np_min z0 rest) b)) ∧
      ∀ i : ℕ, i + 1 < edges.length → edges.getD i 0 < edges.getD (i + 1) 0 := by
  obtain ⟨w, hw, hwneg⟩ := hneg
  have hmin : np_min z0 rest < 0 := lt_of_le_of_lt (np_min_le z0 rest w hw) hwneg
  refine ⟨by unfold shift_heights; rw [if_pos hmin],
    height_bins_nonneg z0 rest b hb,
    _, _, profile_aggregate_eq z0 rest b v hb, ?_, ?_⟩
  · intro i hi
    simp only [List.length_map, List.length_range] at hi
    rw [List.getD_eq_getElem?_getD,
      List.getElem?_eq_getElem (by simp only [List.length_map, List.length_range]; exact hi)]
    simp
  · intro i hi
    simp only [List.length_map, List.length_range] at hi
    rw [List.getD_eq_getElem?_getD,
      List.getElem?_eq_getElem (by simp only [List.length_map, List.length_range]; omega),
      List.getD_eq_getElem?_getD,
      List.getElem?_eq_getElem (by simp only [List.length_map, List.length_range]; omega)]
    simp only [Option.getD_some, List.getElem_map, List.getElem_range]
    push_cast
    nlinarith

/-- Witness for C9 on the spec's example heights [-2, -1, 1/2, 3/2] with
bin width 1. -/
theorem profile_aggregate_negative_shift_witness :
    (0 : ℚ) < 1 ∧ (∃ w ∈ (-2 : ℚ) :: [(-1 : ℚ), 1 / 2, 3 / 2], w < 0) ∧
    (shift_heights ((-2 : ℚ) :: [(-1 : ℚ), 1 / 2, 3 / 2]) (np_min (-2) [(-1), 1 / 2, 3 / 2]) =
      ((-2 : ℚ) :: [(-1 : ℚ), 1 / 2, 3 / 2]).map (fun h => h - np_min (-2) [(-1), 1 / 2, 3 / 2]) ∧
    (∀ k ∈ height_bins ((-2 : ℚ) :: [(-1 : ℚ), 1 / 2, 3 / 2]) (np_min (-2) [(-1), 1 / 2, 3 / 2]) 1, 0 ≤ k) ∧
    ∃ edges weights,
      profile_aggregate ((-2 : ℚ) :: [(-1 : ℚ), 1 / 2, 3 / 2]) 1 1 = .ok (edges, weights) ∧
      (∀ i : ℕ, i < edges.length →
        edges.getD i 0 = (i : ℚ) * 1 +
          (np_min (-2) [(-1), 1 / 2, 3 / 2] - pymod (np_min (-2) [(-1), 1 / 2, 3 / 2]) 1)) ∧
      ∀ i : ℕ, i + 1 < edges.length → edges.getD i 0 < edges.getD (i + 1) 0) :=
  ⟨by norm_num, ⟨-2, by norm_num, by norm_num⟩,
    profile_aggregate_negative_shift (-2) [(-1), 1 / 2, 3 / 2] 1 1 (by norm_num)
      ⟨-2, by norm_num, by norm_num⟩⟩

/-- C4 (code bug): the alignment routine has no degenerate-case guard: on
the anti-parallel pair it still divides by s^2 = 0.  In this exact model
(division by zero giving 0) the result collapses to the identity matrix,
which maps the first vector to itself rather than to the second, so no
180-degree rotation is returned; under IEEE float semantics the same input
gives inf/nan entries, equally failing the claim. -/
theorem rotation_matrix_antiparallel_unguarded :
    rotation_matrix_from_vectors (0, 0, 1) (0, 0, -1) = eye3 ∧
    matvec3 (rotation_matrix_from_vectors (0, 0, 1) (0, 0, -1)) (0, 0, 1) =
      ((0 : ℝ), (0 : ℝ), (1 : ℝ)) ∧
    ((0 : ℝ), (0 : ℝ), (1 : ℝ)) ≠ ((0 : ℝ), (0 : ℝ), (-1 : ℝ)) := by
  have h1 : norm3 ((0 : ℝ), (0 : ℝ), (1 : ℝ)) = 1 := by
    unfold norm3
    norm_num [Real.sqrt_one]
  have h2 : norm3 ((0 : ℝ), (0 : ℝ), (-1 : ℝ)) = 1 := by
    unfold norm3
    norm_num [Real.sqrt_one]
  have hR : rotation_matrix_from_vectors (0, 0, 1) (0, 0, -1) = eye3 := by
    unfold rotation_matrix_from_vectors
    simp only [h1, h2]
    unfold div3 cross3 dot3 norm3 mat3_add mat3_smul mat3_mul
    unfold mat3_col1 mat3_col2 mat3_col3 add3 smul3 eye3
    norm_num [Real.sqrt_zero]
  refine ⟨hR, ?_, ?_⟩
  · rw [hR]
    unfold matvec3 dot3 eye3
    norm_num
  · simp only [ne_eq, Prod.mk.injEq, not_and]
    intro h3 h4
    norm_num

/-- C6 counterexample: in the table whose third row's parent_id matches two
section_ids, that segment is not skipped: the assembler builds its cylinder
from the first matching row, so the mesh has one cylinder instead of none. -/
theorem dup_parent_not_skipped :
    recontruct_treefile dup_parent_table =
      [segment_cylinder ⟨0, 0, 0, 1, 5, 0⟩ ⟨3, 0, 4, 1, 7, 5⟩] := by
  rfl

/-- C6 amended: a non-root segment whose parent_id matches zero section_ids
is skipped through the caught lookup failure, and the loop does not abort;
but a segment whose parent_id matches several section_ids is not skipped:
its cylinder is built from the first matching row. -/
theorem find_parent_zero_or_first (df : List TreeRow) (row : TreeRow)
    (hroot : (row.parent_id == 0 || row.section_id == -1) = false) :
    (find_parent df row.parent_id = [] →
      row_step df row = .error .missingParent) ∧
    ∀ parent rest, find_parent df row.parent_id = parent :: rest →
      row_step df row = .ok (some (segment_cylinder parent row)) := by
  constructor
  · intro h
    unfold row_step
    rw [hroot]
    simp only [Bool.false_eq_true, if_false, h]
  · intro parent rest h
    unfold row_step
    rw [hroot]
    simp only [Bool.false_eq_true, if_false, h]

/-- Witness for C6 on the orphan segment whose parent_id 9 matches no row. -/
theorem find_parent_zero_or_first_witness :
    ((orphan_row.parent_id == 0 || orphan_row.section_id == -1) = false) ∧
    row_step orphan_table orphan_row = .error .missingParent :=
  ⟨by rfl, (find_parent_zero_or_first orphan_table orphan_row (by rfl)).1 rfl⟩

/-- Helper: markers of a cylinder created on the canonical axis, rotated
about the origin and translated: the end-disc centres land at
start + R (0, 0, +-height/2) and the axis midpoint lands exactly on the
translation vector. -/
theorem built_cylinder_markers (radius len : ℝ) (R : M3) (start : V3) :
    (((create_cylinder radius len 8 4).rotate R (0, 0, 0)).translate start).height = len ∧
    (((create_cylinder radius len 8 4).rotate R (0, 0, 0)).translate start).top_center =
      add3 (matvec3 R (0, 0, len / 2)) start ∧
    (((create_cylinder radius len 8 4).rotate R (0, 0, 0)).translate start).bottom_center =
      add3 (matvec3 R (0, 0, -(len / 2))) start ∧
    smul3 (1 / 2)
      (add3 (((create_cylinder radius len 8 4).rotate R (0, 0, 0)).translate start).top_center
        (((create_cylinder radius len 8 4).rotate R (0, 0, 0)).translate start).bottom_center) =
      start := by
  unfold create_cylinder Cylinder.rotate Cylinder.translate
  unfold add3 sub3 smul3 matvec3 dot3
  refine ⟨rfl, ?_, ?_, ?_⟩ <;>
    · simp only [Prod.ext_iff]
      refine ⟨by ring, by ring, by ring⟩

/-- C7 amended: for every segment row and resolved parent row the built
cylinder has height equal to the Euclidean distance between the parent
position (start) and the segment position (end), its end-disc centres are
the canonical-axis disc centres (0, 0, +-height/2) rotated about the
origin by the matrix aligning +Z with end - start and then translated by
start, and consequently it is the cylinder's axis midpoint (its centre),
not its base, that sits at start. -/
theorem segment_cylinder_geometry (parent row : TreeRow) :
    (segment_cylinder parent row).height =
      Real.sqrt ((row.x - parent.x) ^ 2 + (row.y - parent.y) ^ 2 + (row.z - parent.z) ^ 2) ∧
    (segment_cylinder parent row).top_center =
      add3 (matvec3 (rotation_matrix_from_vectors (0, 0, 1)
          (direction_vector (parent.x, parent.y, parent.z) (row.x, row.y, row.z)))
        (0, 0, (segment_cylinder parent row).height / 2))
        (parent.x, parent.y, parent.z) ∧
    (segment_cylinder parent row).bottom_center =
      add3 (matvec3 (rotation_matrix_from_vectors (0, 0, 1)
          (direction_vector (parent.x, parent.y, parent.z) (row.x, row.y, row.z)))
        (0, 0, -((segment_cylinder parent row).height / 2)))
        (parent.x, parent.y, parent.z) ∧
    smul3 (1 / 2)
        (add3 (segment_cylinder parent row).top_center
          (segment_cylinder parent row).bottom_center) =
      (parent.x, parent.y, parent.z) := by
  have habs : |norm3 (sub3 (row.x, row.y, row.z) (parent.x, parent.y, parent.z))| =
      norm3 (sub3 (row.x, row.y, row.z) (parent.x, parent.y, parent.z)) := by
    refine abs_of_nonneg ?_
    unfold norm3
    exact Real.sqrt_nonneg _
  have hsc : segment_cylinder parent row =
      ((create_cylinder row.radius
          |norm3 (sub3 (row.x, row.y, row.z) (parent.x, parent.y, parent.z))| 8 4).rotate
        (rotation_matrix_from_vectors (0, 0, 1)
          (direction_vector (parent.x, parent.y, parent.z) (row.x, row.y, row.z)))
        (0, 0, 0)).translate (parent.x, parent.y, parent.z) := rfl
  have hmark := built_cylinder_markers row.radius
    |norm3 (sub3 (row.x, row.y, row.z) (parent.x, parent.y, parent.z))|
    (rotation_matrix_from_vectors (0, 0, 1)
      (direction_vector (parent.x, parent.y, parent.z) (row.x, row.y, row.z)))
    (parent.x, parent.y, parent.z)
  refine ⟨?_, ?_, ?_, ?_⟩
  · rw [hsc, hmark.1, habs]
    unfold norm3 sub3
    rfl
  · rw [hsc, hmark.1]
    exact hmark.2.1
  · rw [hsc, hmark.1]
    exact hmark.2.2.1
  · rw [hsc]
    exact hmark.2.2.2

/-- C7 counterexample: for the branch segment from start = (0, 0, 0) to
end = (3, 0, 4) the built cylinder's end-disc centres are (-3/2, 0, -2) and
(3/2, 0, 2): neither lies at start, so the base does not sit at start (the
cylinder is centred there instead). -/
theorem segment_cylinder_base_not_at_start :
    (segment_cylinder root_row branch_row).bottom_center =
      ((-(3 / 2) : ℝ), (0 : ℝ), (-2 : ℝ)) ∧
    (segment_cylinder root_row branch_row).top_center =
      (((3 / 2) : ℝ), (0 : ℝ), (2 : ℝ)) ∧
    (segment_cylinder root_row branch_row).bottom_center ≠ ((0 : ℝ), (0 : ℝ), (0 : ℝ)) ∧
    (segment_cylinder root_row branch_row).top_center ≠ ((0 : ℝ), (0 : ℝ), (0 : ℝ)) := by
  have hn1 : norm3 ((0 : ℝ), (0 : ℝ), (1 : ℝ)) = 1 := by
    unfold norm3
    norm_num [Real.sqrt_one]
  have hn5 : norm3 ((3 : ℝ), (0 : ℝ), (4 : ℝ)) = 5 := by
    unfold norm3
    rw [show (3 : ℝ) ^ 2 + (0 : ℝ) ^ 2 + (4 : ℝ) ^ 2 = 5 ^ 2 by norm_num,
      Real.sqrt_sq (by norm_num)]
  have ha : div3 ((0 : ℝ), (0 : ℝ), (1 : ℝ)) 1 = ((0 : ℝ), (0 : ℝ), (1 : ℝ)) := by
    unfold div3
    norm_num
  have hb : div3 ((3 : ℝ), (0 : ℝ), (4 : ℝ)) 5 = ((3 / 5 : ℝ), (0 : ℝ), (4 / 5 : ℝ)) := by
    unfold div3
    norm_num
  have hv : cross3 ((0 : ℝ), (0 : ℝ), (1 : ℝ)) ((3 / 5 : ℝ), (0 : ℝ), (4 / 5 : ℝ)) =
      ((0 : ℝ), (3 / 5 : ℝ), (0 : ℝ)) := by
    unfold cross3
    norm_num
  have hs : norm3 ((0 : ℝ), (3 / 5 : ℝ), (0 : ℝ)) = 3 / 5 := by
    unfold norm3
    rw [show (0 : ℝ) ^ 2 + (3 / 5 : ℝ) ^ 2 + (0 : ℝ) ^ 2 = (3 / 5) ^ 2 by norm_num,
      Real.sqrt_sq (by norm_num)]
  have hc : dot3 ((0 : ℝ), (0 : ℝ), (1 : ℝ)) ((3 / 5 : ℝ), (0 : ℝ), (4 / 5 : ℝ)) =
      (4 / 5 : ℝ) := by
    unfold dot3
    norm_num
  have hR : rotation_matrix_from_vectors ((0 : ℝ), (0 : ℝ), (1 : ℝ)) ((3 : ℝ), (0 : ℝ), (4 : ℝ)) =
      ((((4 / 5 : ℝ), (0 : ℝ), (3 / 5 : ℝ)), ((0 : ℝ), (1 : ℝ), (0 : ℝ)),
        ((-(3 / 5) : ℝ), (0 : ℝ), (4 / 5 : ℝ))) : M3) := by
    unfold rotation_matrix_from_vectors
    simp only [hn1, hn5, ha, hb, hv, hs, hc]
    unfold mat3_add mat3_smul mat3_mul mat3_col1 mat3_col2 mat3_col3 add3 smul3 dot3 eye3
    norm_num
  have hdir : direction_vector ((0 : ℝ), (0 : ℝ), (0 : ℝ)) ((3 : ℝ), (0 : ℝ), (4 : ℝ)) =
      ((3 : ℝ), (0 : ℝ), (4 : ℝ)) := by
    unfold direction_vector
    norm_num
  have hsub : sub3 ((3 : ℝ), (0 : ℝ), (4 : ℝ)) ((0 : ℝ), (0 : ℝ), (0 : ℝ)) =
      ((3 : ℝ), (0 : ℝ), (4 : ℝ)) := by
    unfold sub3
    norm_num
  have hsc : segment_cylinder root_row branch_row =
      ((create_cylinder 1 5 8 4).rotate
        ((((4 / 5 : ℝ), (0 : ℝ), (3 / 5 : ℝ)), ((0 : ℝ), (1 : ℝ), (0 : ℝ)),
          ((-(3 / 5) : ℝ), (0 : ℝ), (4 / 5 : ℝ))) : M3)
        (0, 0, 0)).translate ((0 : ℝ), (0 : ℝ), (0 : ℝ)) := by
    unfold segment_cylinder root_row branch_row
    simp only [hdir, hsub, hn5, hR]
    rw [show |(5 : ℝ)| = 5 from abs_of_nonneg (by norm_num)]
  rw [hsc]
  unfold create_cylinder Cylinder.rotate Cylinder.translate add3 sub3 matvec3 dot3
  refine ⟨by norm_num, by norm_num, ?_, ?_⟩ <;>
    · simp only [ne_eq, Prod.ext_iff, not_and]
      intro h3 h4
      norm_num
